import Mathlib

/-
Verification development for the timesheet repository
(src/timesheet.py, src/timesheet_parser.py).

The Python program is shallowly embedded:
* Python dicts become association lists (`List (κ × β)`) with first-match
  lookup; `d[k] = v` updates the first matching entry in place or appends.
* Python strings that the program manipulates character by character
  (the `"YYYY-WW"` week keys, log lines, 14-digit timestamps) become
  `List Char`, with the decimal printing/parsing and `str.split` behavior
  of Python modelled by explicit functions below.
* Python 2 arithmetic: `int / int` is floor division (`Int.fdiv`);
  `float` expressions (`1.0 * x / y`, `100.0 * (a - b) / b`) are modelled
  with `ℚ`; `int(x)` on a float truncates toward zero (`pytrunc`).
* A Python statement that raises an uncaught exception is modelled by
  `Except String`, with the exception name as the payload.
-/

/-! ## Association lists (Python dicts) -/

/-- First-match association-list lookup, modelling Python `d[k]` / `k in d`. -/
def lookupD {α β : Type} [DecidableEq α] (k : α) : List (α × β) → Option β
  | [] => none
  | (a, b) :: rest => if a = k then some b else lookupD k rest

/-- Python `d[k] = f (d.get k)`: update the entry in place if present, else append. -/
def updD {α β : Type} [DecidableEq α] (k : α) (f : Option β → β) :
    List (α × β) → List (α × β)
  | [] => [(k, f none)]
  | (a, b) :: rest => if a = k then (a, f (some b)) :: rest else (a, b) :: updD k f rest

/-- Python `d[k] = f (d[k])` on a dict whose key set is fixed in advance
(the per-day statistics dict is pre-initialized with keys 1..7, so the key
is always present at the call sites the program reaches). -/
def updExisting {α β : Type} [DecidableEq α] (k : α) (f : β → β) :
    List (α × β) → List (α × β)
  | [] => []
  | (a, b) :: rest => if a = k then (a, f b) :: rest else (a, b) :: updExisting k f rest

theorem lookupD_updD {α β : Type} [DecidableEq α] (k k' : α) (f : Option β → β)
    (m : List (α × β)) :
    lookupD k' (updD k f m) = if k' = k then some (f (lookupD k m)) else lookupD k' m := by
  induction m with
  | nil =>
    by_cases h : k' = k
    · simp [lookupD, updD, h]
    · simp [lookupD, updD, h, Ne.symm h]
  | cons p rest ih =>
    obtain ⟨a, b⟩ := p
    by_cases hak : a = k
    · subst hak
      by_cases hk' : k' = a
      · simp [lookupD, updD, hk']
      · simp [lookupD, updD, hk', Ne.symm hk']
    · by_cases hk' : k' = a
      · subst hk'
        have hne : ¬ k' = k := hak
        simp [lookupD, updD, hak, hne]
      · simp [lookupD, updD, hak, hk', Ne.symm hk', ih]

theorem lookupD_updExisting {α β : Type} [DecidableEq α] (k k' : α) (f : β → β)
    (m : List (α × β)) :
    lookupD k' (updExisting k f m) =
      if k' = k then (lookupD k m).map f else lookupD k' m := by
  induction m with
  | nil =>
    by_cases h : k' = k
    · simp [lookupD, updExisting, h]
    · simp [lookupD, updExisting, h, Ne.symm h]
  | cons p rest ih =>
    obtain ⟨a, b⟩ := p
    by_cases hak : a = k
    · subst hak
      by_cases hk' : k' = a
      · simp [lookupD, updExisting, hk']
      · simp [lookupD, updExisting, hk', Ne.symm hk']
    · by_cases hk' : k' = a
      · subst hk'
        have hne : ¬ k' = k := hak
        simp [lookupD, updExisting, hak, hne]
      · simp [lookupD, updExisting, hak, hk', Ne.symm hk', ih]

theorem map_fst_updExisting {α β : Type} [DecidableEq α] (k : α) (f : β → β)
    (m : List (α × β)) :
    (updExisting k f m).map Prod.fst = m.map Prod.fst := by
  induction m with
  | nil => rfl
  | cons p rest ih =>
    obtain ⟨a, b⟩ := p
    by_cases hak : a = k <;> simp [updExisting, hak, ih]

/-! ## Decimal strings

The program builds its week keys with Python string formatting
(`'{0}-{1}'.format(...)`, `'{0}-0{1}'.format(...)`) and re-parses them with
`split('-')` and `int(...)`.  These are modelled on `List Char`. -/

/-- One decimal digit as a character (`str` of a digit). -/
def digitChar : Nat → Char
  | 0 => '0' | 1 => '1' | 2 => '2' | 3 => '3' | 4 => '4'
  | 5 => '5' | 6 => '6' | 7 => '7' | 8 => '8' | 9 => '9'
  | _ => '*'

def digitVal (c : Char) : Nat := c.toNat - 48

def isDigitC (c : Char) : Bool := 48 ≤ c.toNat && c.toNat ≤ 57

/-- Fuel-driven decimal printer (most significant digit first). -/
def natDigitsAux : Nat → Nat → List Char
  | 0, _ => []
  | fuel + 1, n =>
    if n < 10 then [digitChar n] else natDigitsAux fuel (n / 10) ++ [digitChar (n % 10)]

/-- Decimal digits of `n`, i.e. Python `str(n)` for a non-negative int. -/
def natDigits (n : Nat) : List Char := natDigitsAux (n + 1) n

/-- Python `str` of an int. -/
def intToStr (i : Int) : List Char :=
  if i < 0 then '-' :: natDigits i.natAbs else natDigits i.natAbs

/-- Value of a digit string read by Python `int(...)` (fold over the digits). -/
def valFrom (a : Nat) (cs : List Char) : Nat :=
  cs.foldl (fun x c => 10 * x + digitVal c) a

/-- Python `int(s)` on an unsigned decimal string; `none` models `ValueError`. -/
def parseNat (cs : List Char) : Option Nat :=
  if !cs.isEmpty && cs.all isDigitC then some (valFrom 0 cs) else none

/-- Python `int(s)` allowing a leading minus sign. -/
def parseInt (cs : List Char) : Option Int :=
  if cs.head? = some '-' then (parseNat cs.tail).map (fun n => -(n : Int))
  else (parseNat cs).map Int.ofNat

/-- Python `s.split(sep)` for a one-character separator: splits on every
occurrence, keeping empty pieces. -/
def splitOnChar (sep : Char) : List Char → List (List Char)
  | [] => [[]]
  | c :: cs =>
    if c = sep then [] :: splitOnChar sep cs
    else (c :: (splitOnChar sep cs).headD []) :: (splitOnChar sep cs).tail

theorem natDigitsAux_congr :
    ∀ (n f₁ f₂ : Nat), n < f₁ → n < f₂ → natDigitsAux f₁ n = natDigitsAux f₂ n := by
  intro n
  induction n using Nat.strong_induction_on with
  | _ n ih =>
    intro f₁ f₂ h₁ h₂
    match f₁, f₂ with
    | g₁ + 1, g₂ + 1 =>
      simp only [natDigitsAux]
      by_cases h10 : n < 10
      · simp [h10]
      · have hdiv : n / 10 < n := Nat.div_lt_self (by omega) (by omega)
        simp only [h10, if_false]
        rw [ih (n / 10) hdiv g₁ g₂ (by omega) (by omega)]

theorem natDigits_eq (n : Nat) :
    natDigits n = if n < 10 then [digitChar n]
      else natDigits (n / 10) ++ [digitChar (n % 10)] := by
  by_cases h10 : n < 10
  · simp [natDigits, natDigitsAux, h10]
  · have hdiv : n / 10 < n := Nat.div_lt_self (by omega) (by omega)
    have h2 : natDigits n = natDigitsAux n (n / 10) ++ [digitChar (n % 10)] := by
      show natDigitsAux (n + 1) n = _
      simp only [natDigitsAux, h10, if_false]
    rw [h2, natDigitsAux_congr (n / 10) n (n / 10 + 1) hdiv (by omega), if_neg h10]
    rfl

theorem digitVal_digitChar (d : Nat) (h : d < 10) : digitVal (digitChar d) = d := by
  interval_cases d <;> rfl

theorem isDigitC_digitChar (d : Nat) (h : d < 10) : isDigitC (digitChar d) = true := by
  interval_cases d <;> rfl

theorem valFrom_cons (a : Nat) (c : Char) (cs : List Char) :
    valFrom a (c :: cs) = valFrom (10 * a + digitVal c) cs := rfl

theorem valFrom_append_singleton (a : Nat) (cs : List Char) (c : Char) :
    valFrom a (cs ++ [c]) = 10 * valFrom a cs + digitVal c := by
  simp [valFrom, List.foldl_append]

theorem natDigits_ne_nil (n : Nat) : natDigits n ≠ [] := by
  rw [natDigits_eq]
  by_cases h10 : n < 10 <;> simp [h10]

theorem natDigits_all_digits (n : Nat) : ∀ c ∈ natDigits n, isDigitC c = true := by
  induction n using Nat.strong_induction_on with
  | _ n ih =>
    rw [natDigits_eq]
    by_cases h10 : n < 10
    · simp only [h10, if_true]
      intro c hc
      rw [List.mem_singleton] at hc
      subst hc
      exact isDigitC_digitChar n h10
    · have hdiv : n / 10 < n := Nat.div_lt_self (by omega) (by omega)
      simp only [h10, if_false]
      intro c hc
      rcases List.mem_append.mp hc with h | h
      · exact ih (n / 10) hdiv c h
      · rw [List.mem_singleton] at h
        subst h
        exact isDigitC_digitChar (n % 10) (Nat.mod_lt n (by omega))

theorem valFrom_natDigits (n : Nat) : valFrom 0 (natDigits n) = n := by
  induction n using Nat.strong_induction_on with
  | _ n ih =>
    rw [natDigits_eq]
    by_cases h10 : n < 10
    · simp [h10, valFrom, digitVal_digitChar n h10]
    · have hdiv : n / 10 < n := Nat.div_lt_self (by omega) (by omega)
      simp only [h10, if_false]
      rw [valFrom_append_singleton, ih (n / 10) hdiv,
        digitVal_digitChar (n % 10) (Nat.mod_lt n (by omega))]
      omega

theorem parseNat_natDigits (n : Nat) : parseNat (natDigits n) = some n := by
  have hne : (natDigits n).isEmpty = false := by
    cases h : natDigits n with
    | nil => exact absurd h (natDigits_ne_nil n)
    | cons a l => rfl
  have hall : (natDigits n).all isDigitC = true :=
    List.all_eq_true.mpr (natDigits_all_digits n)
  simp [parseNat, hne, hall, valFrom_natDigits]

theorem parseNat_zero_cons (n : Nat) : parseNat ('0' :: natDigits n) = some n := by
  have hall : ('0' :: natDigits n).all isDigitC = true :=
    List.all_eq_true.mpr (by
      intro c hc
      rcases List.mem_cons.mp hc with h | h
      · subst h; rfl
      · exact natDigits_all_digits n c h)
  simp [parseNat, hall, valFrom_cons]
  have : digitVal '0' = 0 := rfl
  rw [this]
  simpa using valFrom_natDigits n

theorem dash_not_mem_natDigits (n : Nat) : '-' ∉ natDigits n := by
  intro h
  have := natDigits_all_digits n '-' h
  simp [isDigitC] at this

theorem head?_natDigits_ne_dash (n : Nat) : (natDigits n).head? ≠ some '-' := by
  cases h : natDigits n with
  | nil => simp
  | cons a l =>
    have ha : a ∈ natDigits n := by rw [h]; exact List.mem_cons_self a l
    have := natDigits_all_digits n a ha
    intro hh
    simp only [List.head?, Option.some.injEq] at hh
    subst hh
    simp [isDigitC] at this

theorem parseInt_natDigits (n : Nat) : parseInt (natDigits n) = some (n : Int) := by
  simp [parseInt, head?_natDigits_ne_dash n, parseNat_natDigits]

theorem parseInt_zero_cons (n : Nat) : parseInt ('0' :: natDigits n) = some (n : Int) := by
  simp [parseInt, parseNat_zero_cons]

theorem splitOnChar_ne_nil (sep : Char) (cs : List Char) : splitOnChar sep cs ≠ [] := by
  cases cs with
  | nil => simp [splitOnChar]
  | cons c cs =>
    by_cases h : c = sep <;> simp [splitOnChar, h]

theorem splitOnChar_no_sep (sep : Char) (cs : List Char) (h : sep ∉ cs) :
    splitOnChar sep cs = [cs] := by
  induction cs with
  | nil => rfl
  | cons c cs ih =>
    have hc : ¬ c = sep := fun he => h (he ▸ List.mem_cons_self c cs)
    have hcs : sep ∉ cs := fun hm => h (List.mem_cons_of_mem c hm)
    simp [splitOnChar, hc, ih hcs]

theorem splitOnChar_append (sep : Char) (a b : List Char) (ha : sep ∉ a) :
    splitOnChar sep (a ++ sep :: b) = a :: splitOnChar sep b := by
  induction a with
  | nil => simp [splitOnChar]
  | cons c a ih =>
    have hc : ¬ c = sep := fun he => ha (he ▸ List.mem_cons_self c a)
    have ha' : sep ∉ a := fun hm => ha (List.mem_cons_of_mem c hm)
    simp [splitOnChar, hc, ih ha']

/-! ## Week keys and the trend calculator's week stepping

`get_weekly_info` (timesheet_parser.py:177-181) formats its dict keys as
`'{0}-0{1}'.format(yr, week)` when `week < 10` and `'{0}-{1}'.format(yr, week)`
otherwise.  `compute_weeks_ago_index` (timesheet_parser.py:113-120) re-parses
such a key with `split('-')` / `int(...)` and formats its result with
`'{0}-{1}'.format(...)` (never zero-padded). -/

abbrev Key := List Char

/-- The zero-padded weekly dict key built at timesheet_parser.py:178-181. -/
def weekly_key (yr : Int) (week : Nat) : Key :=
  if week < 10 then intToStr yr ++ '-' :: '0' :: natDigits week
  else intToStr yr ++ '-' :: natDigits week

/-- The unpadded `'{0}-{1}'`-formatted key produced by
`compute_weeks_ago_index`. -/
def unpadded_key (yr : Int) (week : Int) : Key :=
  intToStr yr ++ '-' :: intToStr week

/-- timesheet_parser.py:113-120.  Splits the current week index on `'-'`,
steps back `weeks_ago` weeks with a fixed 52-week wrap, and formats the
result unpadded.  A key that does not split into exactly two pieces would
raise `ValueError` in Python; that case is unreachable from the keys built
by `weekly_key` with a non-negative year, and is modelled by `[]`.
`int(...)` on a malformed piece (also unreachable) is modelled by
defaulting to 0. -/
def compute_weeks_ago_index (cur_week_index : Key) (weeks_ago : Int) : Key :=
  match splitOnChar '-' cur_week_index with
  | [current_yr, current_week] =>
    let prev_week : Int := (parseInt current_week).getD 0 - weeks_ago
    if prev_week < 1 then
      intToStr ((parseInt current_yr).getD 0 - 1) ++ '-' :: intToStr (52 + prev_week)
    else current_yr ++ '-' :: intToStr prev_week
  | _ => []

theorem intToStr_nonneg (y : Int) (hy : 0 ≤ y) : intToStr y = natDigits y.natAbs := by
  simp [intToStr, not_lt.mpr hy, Int.not_lt.mpr hy]

theorem parseInt_intToStr (y : Int) (hy : 0 ≤ y) : parseInt (intToStr y) = some y := by
  rw [intToStr_nonneg y hy, parseInt_natDigits]
  congr 1
  omega

theorem dash_not_mem_intToStr (y : Int) (hy : 0 ≤ y) : '-' ∉ intToStr y := by
  rw [intToStr_nonneg y hy]
  exact dash_not_mem_natDigits _

/-- The week-number piece of a `weekly_key` and its parsed value. -/
theorem weekly_key_split (y : Int) (w : Nat) (hy : 0 ≤ y) :
    splitOnChar '-' (weekly_key y w) =
      [intToStr y, if w < 10 then '0' :: natDigits w else natDigits w] := by
  by_cases hw : w < 10
  · simp only [weekly_key, hw, if_true]
    rw [splitOnChar_append '-' _ _ (dash_not_mem_intToStr y hy),
      splitOnChar_no_sep '-' _ (by
        intro hm
        rcases List.mem_cons.mp hm with h | h
        · exact absurd h.symm (by decide)
        · exact dash_not_mem_natDigits w h)]
  · simp only [weekly_key, hw, if_false]
    rw [splitOnChar_append '-' _ _ (dash_not_mem_intToStr y hy),
      splitOnChar_no_sep '-' _ (dash_not_mem_natDigits w)]

/-! ## The Interval Reconstructor (`get_activity_timings`)

timesheet_parser.py:62-89.  The function consumes the event stream already
ordered ascending by local timestamp (`get_ordered_activity_timestamps`);
the embedding takes that ordered list as a parameter.  A timestamp is
carried as its absolute time in seconds together with its
`isocalendar()` projection `(year, week, day-of-week)`; computing the ISO
calendar belongs to Python's `datetime` library, external to this program.
`time_diff.days * 24 * 3600 + time_diff.seconds` is exactly the signed
difference of the two times in seconds.  The over-15-hour check only
prints a warning and changes no data, so it is not modelled. -/

structure Event where
  sec : Int
  year : Int
  week : Nat
  dow : Nat
  activity : String
deriving DecidableEq

/-- One yielded tuple `(start_activity, year, week_number, day_of_week,
time_delta)` of `get_activity_timings`.  `end_sec` additionally records the
ending event's absolute time (the quantity `end_time` the source computes
the tuple from); it is carried only so that the emission order can be
stated, and no downstream fold reads it. -/
structure Timing where
  activity : String
  year : Int
  week : Nat
  dow : Nat
  delta : Int
  end_sec : Int
deriving DecidableEq

/-- The body of one iteration of the loop at timesheet_parser.py:74-89 for
index `x`: the pair `(ordered_timestamps[x-1], ordered_timestamps[x])`,
skipped when `filter_off` and the starting activity is `"Off"`. -/
def interval_of (events : List Event) (filter_off : Bool) (x : Nat) : Option Timing :=
  match events[x]?, events[x - 1]? with
  | some e, some s =>
    if filter_off && (s.activity == "Off") then none
    else some ⟨s.activity, e.year, e.week, e.dow, e.sec - s.sec, e.sec⟩
  | _, _ => none

/-- timesheet_parser.py:62-89: `for x in range(len(ordered_timestamps) - 1, 1, -1)`
visits `x = N-1, N-2, ..., 2`, i.e. `(List.range' 2 (N - 2)).reverse`. -/
def get_activity_timings (events : List Event) (filter_off : Bool) : List Timing :=
  ((List.range' 2 (events.length - 2)).reverse).filterMap (interval_of events filter_off)

theorem interval_of_eq_some (events : List Event) (fo : Bool) (x : Nat) (t : Timing)
    (h : interval_of events fo x = some t) :
    ∃ (hx : x < events.length) (hx' : x - 1 < events.length),
      t.delta = (events.get ⟨x, hx⟩).sec - (events.get ⟨x - 1, hx'⟩).sec ∧
      t.end_sec = (events.get ⟨x, hx⟩).sec := by
  unfold interval_of at h
  split at h
  · rename_i e s he hs
    obtain ⟨hx, hex⟩ := List.getElem?_eq_some_iff.mp he
    obtain ⟨hx', hsx⟩ := List.getElem?_eq_some_iff.mp hs
    refine ⟨hx, hx', ?_⟩
    split at h
    · exact absurd h (by simp)
    · have ht := Option.some.inj h
      subst ht
      simp [List.get_eq_getElem, hex, hsx]
  · exact absurd h (by simp)

/-! ## The Weekly Aggregator (`get_weekly_info`)

timesheet_parser.py:169-190. -/

structure Tally where
  count : Int
  time : Int
deriving DecidableEq

abbrev ActivityMap := List (String × Tally)
abbrev WeeklyInfo := List (Key × ActivityMap)

/-- timesheet_parser.py:184-189: first occurrence initializes
`{'count': 1, 'time': time_delta}`, later ones increment. -/
def bump (delta : Int) : Option Tally → Tally
  | none => ⟨1, delta⟩
  | some t => ⟨t.count + 1, t.time + delta⟩

/-- The body of the loop at timesheet_parser.py:177-189 for one yielded
timing. -/
def add_interval (weekly_info : WeeklyInfo) (t : Timing) : WeeklyInfo :=
  updD (weekly_key t.year t.week)
    (fun am => updD t.activity (bump t.delta) (am.getD [])) weekly_info

/-- timesheet_parser.py:169-190, parameterized by the timing sequence the
generator yields. -/
def get_weekly_info (timings : List Timing) : WeeklyInfo :=
  timings.foldl add_interval []

/-- Nested lookup `weekly_info[week][activity]`. -/
def lookup2 (weekly_info : WeeklyInfo) (wk : Key) (act : String) : Option Tally :=
  (lookupD wk weekly_info).bind (lookupD act)

/-- Whether a timing lands in bucket `(wk, act)`. -/
def matchesKA (wk : Key) (act : String) (t : Timing) : Bool :=
  decide (weekly_key t.year t.week = wk ∧ t.activity = act)

def hits (l : List Timing) (wk : Key) (act : String) : Nat :=
  (l.filter (matchesKA wk act)).length

def hitTime (l : List Timing) (wk : Key) (act : String) : Int :=
  ((l.filter (matchesKA wk act)).map Timing.delta).sum

def optCount (o : Option Tally) : Int := (o.map Tally.count).getD 0

def optTime (o : Option Tally) : Int := (o.map Tally.time).getD 0

theorem lookup2_add_interval (wi : WeeklyInfo) (t : Timing) (wk : Key) (act : String) :
    lookup2 (add_interval wi t) wk act =
      if matchesKA wk act t then some (bump t.delta (lookup2 wi wk act))
      else lookup2 wi wk act := by
  have hgetD : ∀ (k : String) (o : Option ActivityMap),
      lookupD k (o.getD []) = o.bind (lookupD k) := by
    intro k o; cases o <;> rfl
  by_cases hm : matchesKA wk act t = true
  · obtain ⟨hwk, hact⟩ := of_decide_eq_true hm
    rw [if_pos hm]
    show (lookupD wk (updD (weekly_key t.year t.week) _ wi)).bind (lookupD act) = _
    rw [lookupD_updD, if_pos hwk.symm]
    show lookupD act (updD t.activity (bump t.delta)
      ((lookupD (weekly_key t.year t.week) wi).getD [])) = _
    rw [lookupD_updD, if_pos hact.symm, hact, hwk, hgetD]
    rfl
  · have hp : ¬ (weekly_key t.year t.week = wk ∧ t.activity = act) := by
      intro hc
      exact hm (decide_eq_true hc)
    rw [if_neg hm]
    show (lookupD wk (updD (weekly_key t.year t.week) _ wi)).bind (lookupD act) = _
    rw [lookupD_updD]
    by_cases hwk : wk = weekly_key t.year t.week
    · have hact : ¬ act = t.activity := by
        intro hc
        exact hp ⟨hwk.symm, hc.symm⟩
      rw [if_pos hwk]
      show lookupD act (updD t.activity (bump t.delta)
        ((lookupD (weekly_key t.year t.week) wi).getD [])) = _
      rw [lookupD_updD, if_neg hact, hgetD, ← hwk]
      rfl
    · rw [if_neg hwk]
      rfl

theorem lookup2_foldl (l : List Timing) :
    ∀ (wi : WeeklyInfo) (wk : Key) (act : String),
      lookup2 (l.foldl add_interval wi) wk act =
        if hits l wk act = 0 then lookup2 wi wk act
        else some ⟨optCount (lookup2 wi wk act) + hits l wk act,
                   optTime (lookup2 wi wk act) + hitTime l wk act⟩ := by
  induction l with
  | nil => intro wi wk act; simp [hits, hitTime]
  | cons t l ih =>
    intro wi wk act
    rw [List.foldl_cons, ih (add_interval wi t) wk act, lookup2_add_interval]
    by_cases hm : matchesKA wk act t
    · have hfil : (t :: l).filter (matchesKA wk act) = t :: l.filter (matchesKA wk act) := by
        simp [List.filter_cons, hm]
      have hh : hits (t :: l) wk act = hits l wk act + 1 := by
        simp [hits, hfil]
      have hht : hitTime (t :: l) wk act = t.delta + hitTime l wk act := by
        simp [hitTime, hfil]
      rw [if_pos hm]
      by_cases hz : hits l wk act = 0
      · have hfil0 : l.filter (matchesKA wk act) = [] :=
          List.length_eq_zero.mp hz
        have hht0 : hitTime l wk act = 0 := by simp [hitTime, hfil0]
        rw [if_pos hz, if_neg (by omega), hh, hht, hht0, hz]
        cases ho : lookup2 wi wk act <;>
          simp [bump, optCount, optTime, Tally.mk.injEq]
      · rw [if_neg hz, if_neg (by omega), hh, hht]
        cases ho : lookup2 wi wk act <;>
          simp [bump, optCount, optTime, Tally.mk.injEq] <;> omega
    · have hfil : (t :: l).filter (matchesKA wk act) = l.filter (matchesKA wk act) := by
        simp [List.filter_cons, hm]
      have hh : hits (t :: l) wk act = hits l wk act := by simp [hits, hfil]
      have hht : hitTime (t :: l) wk act = hitTime l wk act := by simp [hitTime, hfil]
      rw [if_neg hm, hh, hht]

/-- Week-level presence in the accumulated weekly info. -/
theorem lookupD_foldl_isSome (l : List Timing) :
    ∀ (wi : WeeklyInfo) (wk : Key),
      (lookupD wk (l.foldl add_interval wi)).isSome =
        ((lookupD wk wi).isSome || l.any (fun t => weekly_key t.year t.week = wk)) := by
  induction l with
  | nil => intro wi wk; simp
  | cons t l ih =>
    intro wi wk
    rw [List.foldl_cons, ih (add_interval wi t) wk]
    unfold add_interval
    rw [lookupD_updD]
    by_cases hwk : wk = weekly_key t.year t.week
    · simp [hwk]
    · simp only [if_neg hwk, List.any_cons]
      have hdec : decide (weekly_key t.year t.week = wk) = false :=
        decide_eq_false (fun h => hwk h.symm)
      rw [hdec, Bool.false_or]

/-! ## The Trend Calculator (`get_wow_changes`)

timesheet_parser.py:92-166.  Averaged tallies are floats in Python,
modelled with `ℚ`.  `active_week_count[activity]` is at least 1 whenever
`activity` is a key of `previous_weekly_tally` (both dicts always gain
their keys together), so the divisions at timesheet_parser.py:137-138
never divide by zero and are modelled with plain `ℚ` division. -/

structure QTally where
  count : ℚ
  time : ℚ
deriving DecidableEq

/-- Python `sorted` (ascending, stable): insertion sort by a boolean `≤`. -/
def insertBy {α : Type} (le : α → α → Bool) (a : α) : List α → List α
  | [] => [a]
  | x :: xs => if le a x then a :: x :: xs else x :: insertBy le a xs

def sortBy {α : Type} (le : α → α → Bool) (l : List α) : List α :=
  l.foldr (insertBy le) []

/-- Lexicographic comparison of character lists (Python string `<=`). -/
def leKey : List Char → List Char → Bool
  | [], _ => true
  | _ :: _, [] => false
  | a :: as, b :: bs => if a < b then true else if a = b then leKey as bs else false

/-- timesheet_parser.py:110-139: sum count and time per activity over the
`weeks_ago` preceding weeks (resolved by `compute_weeks_ago_index`),
counting per activity how many of those weeks had data, then divide.
The running sums and the `active_week_count` dict are carried together,
keyed by activity. -/
def get_previous_weekly_tally (weeks_ago : Nat) (cur_week : Key)
    (weekly_info : WeeklyInfo) : List (String × QTally) :=
  let step := fun (acc : List (String × (Tally × Nat))) (i : Nat) =>
    let week_index := compute_weeks_ago_index cur_week ((i : Int) + 1)
    match lookupD week_index weekly_info with
    | none => acc
    | some am =>
      am.foldl (fun acc2 p =>
        updD p.1 (fun old =>
          match old with
          | none => (p.2, 1)
          | some (t, c) => (⟨t.count + p.2.count, t.time + p.2.time⟩, c + 1)) acc2) acc
  ((List.range weeks_ago).foldl step []).map
    (fun p => (p.1, ⟨(p.2.1.count : ℚ) / (p.2.2 : ℚ), (p.2.1.time : ℚ) / (p.2.2 : ℚ)⟩))

/-- timesheet_parser.py:151-164: the per-activity percentage computation.
`wow_count`/`wow_time` start at the default 0.0 and are overwritten only
when the activity has a previous tally and the guard passes
(`prev >= 1.0` for counts, `prev > 1` for times). -/
def wow_for (tally : List (String × QTally)) (activity : String) (cur : Tally) : ℚ × ℚ :=
  match lookupD activity tally with
  | none => (0, 0)
  | some p =>
    ((if 1 ≤ p.count then 100 * ((cur.count : ℚ) - p.count) / p.count else 0),
     (if 1 < p.time then 100 * ((cur.time : ℚ) - p.time) / p.time else 0))

/-- timesheet_parser.py:141-166: weeks in ascending sorted key order are
enumerated; a week is reported only when its index exceeds `weeks_ago`;
each activity of the week gets its percentage pair.  (The source
recomputes `get_previous_weekly_tally` inside the activity loop; the value
does not depend on the activity, so it is shared here.) -/
def get_wow_changes (weekly_info : WeeklyInfo) (weeks_ago : Nat) :
    List (Key × List (String × (ℚ × ℚ))) :=
  (((sortBy leKey (weekly_info.map Prod.fst)).enum).filter
      (fun p => decide (weeks_ago < p.1))).map
    (fun p =>
      (p.2, match lookupD p.2 weekly_info with
            | none => []
            | some am =>
              am.map (fun q =>
                (q.1, wow_for (get_previous_weekly_tally weeks_ago p.2 weekly_info)
                  q.1 q.2))))

/-! ## Daily statistics (`daily_statistics`)

timesheet_parser.py:270-294.  The per-day dict is pre-initialized with keys
1..7 (`NUM_TO_DAY_MAP.keys()`), and the per-activity entries the loop adds
under a day are carried in the `acts` field.  The `try/except ValueError`
around the `day_cnts` increment can never fire (indexing a dict raises
`KeyError`, not `ValueError`) and is not modelled; the theorems restrict
`day_of_week` to 1..7, where the indexing succeeds, as the
`isocalendar()`-derived data guarantees. -/

structure DayStat where
  context_switches : Int
  day_cnts : Int
  total_time : Int
  acts : List (String × (Int × Int))
deriving DecidableEq

def init_daily : List (Nat × DayStat) :=
  [(1, ⟨0, 0, 0, []⟩), (2, ⟨0, 0, 0, []⟩), (3, ⟨0, 0, 0, []⟩), (4, ⟨0, 0, 0, []⟩),
   (5, ⟨0, 0, 0, []⟩), (6, ⟨0, 0, 0, []⟩), (7, ⟨0, 0, 0, []⟩)]

/-- timesheet_parser.py:281: `daily_statistics[day_of_week]['day_cnts'] += 1`. -/
def day_bump1 (d : DayStat) : DayStat := { d with day_cnts := d.day_cnts + 1 }

/-- timesheet_parser.py:286-293: the per-interval updates applied to the
current day's entry (context switch, total time, per-activity tally). -/
def day_upd (t : Timing) (d : DayStat) : DayStat :=
  { d with
    context_switches := d.context_switches + 1
    total_time := d.total_time + t.delta
    acts := updD t.activity (fun old =>
      match old with
      | none => (t.delta, 1)
      | some (tt, c) => (tt + t.delta, c + 1)) d.acts }

/-- One iteration of the loop at timesheet_parser.py:278-293.  The state is
`(current_day, daily_statistics)`; `current_day` starts at 0. -/
def daily_step (st : Nat × List (Nat × DayStat)) (t : Timing) :
    Nat × List (Nat × DayStat) :=
  let stats1 := if t.dow ≠ st.1 then updExisting t.dow day_bump1 st.2 else st.2
  let cur1 := if t.dow ≠ st.1 then t.dow else st.1
  (cur1, updExisting t.dow (day_upd t) stats1)

/-- timesheet_parser.py:270-294, parameterized by the timing sequence the
generator yields (reverse-chronological order). -/
def daily_statistics (timings : List Timing) : List (Nat × DayStat) :=
  (timings.foldl daily_step (0, init_daily)).2

/-- The day-of-week values that start a new run of equal values in the
traversal order, given the initial cursor value. -/
def runStarts (cur : Nat) : List Nat → List Nat
  | [] => []
  | d :: rest => if d ≠ cur then d :: runStarts d rest else runStarts cur rest

/-! ## Overall activity info and the statistics reports

timesheet_parser.py:227-267 (`get_overall_actitivity_info`),
408-457 (`get_activity_statistics`), 460-491 (`get_daily_statistics`).
The two report functions print; their numeric computations are embedded,
in the order the source evaluates them, so that an uncaught
`ZeroDivisionError` surfaces exactly where Python would raise it. -/

/-- Python float division; dividing by zero raises `ZeroDivisionError`. -/
def pydiv (a b : ℚ) : Except String ℚ :=
  if b = 0 then Except.error "ZeroDivisionError" else Except.ok (a / b)

/-- Python 2 `int // int` division (`/` on two ints floors). -/
def pyIntDiv (a b : Int) : Except String Int :=
  if b = 0 then Except.error "ZeroDivisionError" else Except.ok (Int.fdiv a b)

/-- Python `int(...)` applied to a float: truncation toward zero. -/
def pytrunc (q : ℚ) : Int := if q < 0 then q.ceil else q.floor

structure ActStat where
  total_time : Int
  weekday_timings : List Int
  weekday_count : Int
  weekend_timings : List Int
  weekend_count : Int
deriving DecidableEq

structure OverallState where
  weekday_cnt : Int
  weekend_cnt : Int
  activities : List (String × ActStat)
  total : Int
  current_day : Int
  current_week : Int
deriving DecidableEq

def overall_init : OverallState := ⟨0, 0, [], 0, -1, -1⟩

/-- One iteration of the loop at timesheet_parser.py:237-261. -/
def overall_step (st : OverallState) (t : Timing) : OverallState :=
  let ensure : List (String × ActStat) → List (String × ActStat) :=
    updD t.activity (fun old => old.getD ⟨0, [], 0, [], 0⟩)
  let addTotal : List (String × ActStat) → List (String × ActStat) :=
    updExisting t.activity (fun a => { a with total_time := a.total_time + t.delta })
  let addWeekday : List (String × ActStat) → List (String × ActStat) :=
    updExisting t.activity (fun a =>
      { a with
        weekday_timings := a.weekday_timings ++ [t.delta]
        weekday_count := a.weekday_count + 1 })
  let addWeekend : List (String × ActStat) → List (String × ActStat) :=
    updExisting t.activity (fun a =>
      { a with
        weekend_timings := a.weekend_timings ++ [t.delta]
        weekend_count := a.weekend_count + 1 })
  let st1 := { st with total := st.total + t.delta, activities := addTotal (ensure st.activities) }
  if 1 ≤ t.dow ∧ t.dow ≤ 5 then
    let st2 := { st1 with activities := addWeekday st1.activities }
    if (t.dow : Int) ≠ st2.current_day ∨ (t.week : Int) ≠ st2.current_week then
      { st2 with
        current_day := (t.dow : Int)
        current_week := (t.week : Int)
        weekday_cnt := st2.weekday_cnt + 1 }
    else st2
  else
    let st2 := { st1 with activities := addWeekend st1.activities }
    if (t.dow : Int) ≠ st2.current_day ∨ (t.week : Int) ≠ st2.current_week then
      { st2 with
        current_day := (t.dow : Int)
        current_week := (t.week : Int)
        weekend_cnt := st2.weekend_cnt + 1 }
    else st2

/-- timesheet_parser.py:227-267: the fold, then the percentage pass
`total_time * 100.0 / total` over all activities (which raises
`ZeroDivisionError` if an activity exists and `total` is 0). -/
def get_overall_actitivity_info (timings : List Timing) :
    Except String (List (String × ActStat × ℚ) × Int × Int) :=
  let st := timings.foldl overall_step overall_init
  (st.activities.mapM (fun p =>
      (pydiv ((p.2.total_time : ℚ) * 100) (st.total : ℚ)).map
        (fun pct => (p.1, p.2, pct)))).map
    (fun acts => (acts, st.weekday_cnt, st.weekend_cnt))

/-- timesheet_parser.py:409-414: guarded average, in whole minutes.
Python 2: `sum / cnt` floors (both ints), then `/ 60.0` is float division
and `int(...)` truncates. -/
def average_mins (timing_list : List Int) : Int :=
  if timing_list.length = 0 then 0
  else pytrunc ((Int.fdiv timing_list.sum (timing_list.length : Int) : ℚ) / 60)

/-- timesheet_parser.py:416-422: guarded median (upper median, index
`int(cnt/2)` of the ascending-sorted list). -/
def medium_mins (timing_list : List Int) : Int :=
  if timing_list.length = 0 then 0
  else pytrunc
    (((sortBy (fun a b => decide (a ≤ b)) timing_list).getD (timing_list.length / 2) 0 : ℚ)
      / 60)

/-- The numeric results printed by `get_activity_statistics`
(timesheet_parser.py:408-457): per-activity weekday rows, the weekday
average work day `int(total_work_time / weekday_cnt / 60)` (unguarded
division), then the same for weekends. -/
def get_activity_statistics_calc (timings : List Timing) :
    Except String ((List (String × Int × Int × Int) × Int) ×
                   (List (String × Int × Int × Int) × Int)) := do
  let info ← get_overall_actitivity_info timings
  let acts := info.1
  let weekday_rows := acts.map (fun p =>
    (p.1, p.2.1.weekday_count, average_mins p.2.1.weekday_timings,
     medium_mins p.2.1.weekday_timings))
  let wd_total := (acts.map (fun p => p.2.1.weekday_timings.sum)).sum
  let wd_per_day ← pyIntDiv wd_total info.2.1
  let wd_avg := Int.fdiv wd_per_day 60
  let weekend_rows := acts.map (fun p =>
    (p.1, p.2.1.weekend_count, average_mins p.2.1.weekend_timings,
     medium_mins p.2.1.weekend_timings))
  let we_total := (acts.map (fun p => p.2.1.weekend_timings.sum)).sum
  let we_per_day ← pyIntDiv we_total info.2.2
  let we_avg := Int.fdiv we_per_day 60
  Except.ok ((weekday_rows, wd_avg), (weekend_rows, we_avg))

/-- Lexicographic `≤` on Lean strings via their character lists. -/
def leStr (a b : String) : Bool := leKey a.data b.data

/-- The numeric results printed by `get_daily_statistics`
(timesheet_parser.py:460-491): for each day 1..7, the per-activity
percentage of the day's total time (a missing activity is a caught
`KeyError`, printed as 0.0), then `ctx_sw = context_switches / day_cnts`
and `work_tm = total_time / day_cnts / 60.0` — both unguarded. -/
def get_daily_statistics_calc (timings : List Timing) :
    Except String (List (Nat × List (String × ℚ) × ℚ × ℚ)) :=
  let ds := daily_statistics timings
  let activities := sortBy leStr
    (((ds.map (fun p => p.2.acts.map Prod.fst)).flatten).dedup)
  (List.range' 1 7).mapM (fun day =>
    match lookupD day ds with
    | none => Except.error "KeyError"
    | some d => do
      let pcts ← activities.mapM (fun act =>
        match lookupD act d.acts with
        | none => Except.ok (act, (0 : ℚ))
        | some a => (pydiv ((a.1 : ℚ) * 100) (d.total_time : ℚ)).map
            (fun pct => (act, pct)))
      let ctx ← pydiv (d.context_switches : ℚ) (d.day_cnts : ℚ)
      let raw ← pydiv (d.total_time : ℚ) (d.day_cnts : ℚ)
      Except.ok (day, pcts, ctx, raw / 60))

/-! ## The Event Loader (`get_activities_in_localtime`)

timesheet_parser.py:25-51.  Each line of a log file is
`entry[:-1].split(' ')`, expected to be `[timestamp, activity]`; the
timestamp is parsed with `strptime(ts, '%Y%m%d%H%M%S')`.  The embedding
takes the concatenated, newline-stripped lines of the matching log files
and the UTC-to-local conversion as a parameter (`datetime.astimezone` is
external to this program).

Control flow of the `try/except` at timesheet_parser.py:42-46: on a
`ValueError` from `strptime`, the handler prints a diagnostic and then
evaluates `sys.exc_traceback()`.  `sys.exc_traceback` is a traceback
object (or unset), not a callable, so this raises (`TypeError` /
`AttributeError`), which propagates out of the loop; there is also no
`continue`, so the handler cannot resume the loop.  A line that does not
split into exactly two pieces raises an uncaught `ValueError` from tuple
unpacking. -/

structure PDate where
  year : Nat
  month : Nat
  day : Nat
  hour : Nat
  minute : Nat
  second : Nat
deriving DecidableEq

/-- `datetime.strptime(ts, '%Y%m%d%H%M%S')`: 14 digits with in-range
fields; `none` models the raised `ValueError`.  (The real `strptime` also
rejects out-of-calendar days such as Feb 30; the day bound is simplified
to 1..31, which is immaterial to the claims checked here.) -/
def strptime14 (cs : List Char) : Option PDate :=
  match cs with
  | [y1, y2, y3, y4, m1, m2, d1, d2, h1, h2, i1, i2, s1, s2] =>
    if ([y1, y2, y3, y4, m1, m2, d1, d2, h1, h2, i1, i2, s1, s2]).all isDigitC then
      let y := valFrom 0 [y1, y2, y3, y4]
      let mo := valFrom 0 [m1, m2]
      let d := valFrom 0 [d1, d2]
      let h := valFrom 0 [h1, h2]
      let mi := valFrom 0 [i1, i2]
      let s := valFrom 0 [s1, s2]
      if 1 ≤ mo ∧ mo ≤ 12 ∧ 1 ≤ d ∧ d ≤ 31 ∧ h ≤ 23 ∧ mi ≤ 59 ∧ s ≤ 59 then
        some ⟨y, mo, d, h, mi, s⟩
      else none
    else none
  | _ => none

/-- Zero-pad to two digits (`strftime` field). -/
def pad2 (n : Nat) : List Char := if n < 10 then '0' :: natDigits n else natDigits n

/-- Zero-pad to four digits (`strftime` `%Y`). -/
def pad4 (n : Nat) : List Char :=
  if n < 10 then '0' :: '0' :: '0' :: natDigits n
  else if n < 100 then '0' :: '0' :: natDigits n
  else if n < 1000 then '0' :: natDigits n
  else natDigits n

/-- `local_ts.strftime('%Y%m%d%H%M%S')`. -/
def strftime14 (d : PDate) : List Char :=
  pad4 d.year ++ pad2 d.month ++ pad2 d.day ++ pad2 d.hour ++ pad2 d.minute ++ pad2 d.second

/-- Processing of one log line (timesheet_parser.py:41-50). -/
def load_line (to_local : PDate → PDate) (acc : List (Key × List Char))
    (entry : List Char) : Except String (List (Key × List Char)) :=
  match splitOnChar ' ' entry with
  | [ts, activity] =>
    match strptime14 ts with
    | some d => Except.ok (updD (strftime14 (to_local d)) (fun _ => activity) acc)
    | none => Except.error "TypeError"
  | _ => Except.error "ValueError"

/-- timesheet_parser.py:25-51, over the newline-stripped lines of the
matching log files. -/
def get_activities_in_localtime (to_local : PDate → PDate) (lines : List (List Char)) :
    Except String (List (Key × List Char)) :=
  lines.foldlM (load_line to_local) []

/-! ## Claims -/

/-- The four-event scenario of the spec's end-to-end test: `T0` is
2024-01-01 00:00 (a Monday, ISO week 1), events at `T0`, `T0+1h`,
`T0+3h`, `T0+4h`. -/
def c1_events : List Event :=
  [⟨0, 2024, 1, 1, "Off"⟩, ⟨3600, 2024, 1, 1, "Coding"⟩,
   ⟨10800, 2024, 1, 1, "Meetings"⟩, ⟨14400, 2024, 1, 1, "Off"⟩]

/-- Claim C1 (counterexample): on the four-event stream
`[(T0,"Off"), (T0+1h,"Coding"), (T0+3h,"Meetings"), (T0+4h,"Off")]` with
`filter_off = true`, `get_activity_timings` does not yield exactly one
interval. -/
theorem C1_counterexample : ¬ ((get_activity_timings c1_events true).length = 1) := by
  decide

/-- Claim C1 (amended): that stream yields exactly two intervals, newest
first: `("Meetings", 3600)` then `("Coding", 7200)`.  The loop
`range(N-1, 1, -1)` drops the oldest pair (the Off-starting one), not the
trailing pair; the trailing `(Meetings, Off)` pair survives because
filtering tests the starting activity. -/
theorem C1_two_intervals :
    (get_activity_timings c1_events true).map (fun t => (t.activity, t.delta)) =
      [("Meetings", 3600), ("Coding", 7200)] := by
  decide

/-- Claim C4: for every ordered event stream of N ≥ 2 events (strictly
increasing timestamps, as the loader's dedup-by-timestamp-string
guarantees), `get_activity_timings` yields at most N − 2 intervals, every
yielded interval has a non-negative duration, and intervals are emitted
newest-first (strictly descending ending timestamps). -/
theorem C4_reconstructor_shape (events : List Event) (fo : Bool)
    (hN : 2 ≤ events.length)
    (hsort : events.Pairwise (fun a b => a.sec < b.sec)) :
    (get_activity_timings events fo).length ≤ events.length - 2 ∧
    (∀ t ∈ get_activity_timings events fo, 0 ≤ t.delta) ∧
    (get_activity_timings events fo).Pairwise (fun t₁ t₂ => t₂.end_sec < t₁.end_sec) := by
  have hsec : ∀ (i j : Nat) (hi : i < events.length) (hj : j < events.length),
      i < j → (events.get ⟨i, hi⟩).sec < (events.get ⟨j, hj⟩).sec := by
    intro i j hi hj hij
    exact List.pairwise_iff_get.mp hsort ⟨i, hi⟩ ⟨j, hj⟩ hij
  refine ⟨?_, ?_, ?_⟩
  · calc (get_activity_timings events fo).length
        ≤ ((List.range' 2 (events.length - 2)).reverse).length :=
          List.length_filterMap_le _ _
      _ = events.length - 2 := by
          rw [List.length_reverse, List.length_range']
  · intro t ht
    obtain ⟨x, hx, hsome⟩ := List.mem_filterMap.mp ht
    rw [List.mem_reverse] at hx
    obtain ⟨hx2, hxlt⟩ := List.mem_range'_1.mp hx
    obtain ⟨hxl, hxl', hdelta, hend⟩ := interval_of_eq_some events fo x t hsome
    have hmono := hsec (x - 1) x hxl' hxl (by omega)
    omega
  · have hrev : ((List.range' 2 (events.length - 2)).reverse).Pairwise
        (fun a b => b < a ∧ 2 ≤ b ∧ a < events.length) := by
      have hbase : ((List.range' 2 (events.length - 2)).reverse).Pairwise
          (fun a b => b < a) :=
        List.pairwise_reverse.mpr (List.pairwise_lt_range' 2 (events.length - 2))
      refine List.Pairwise.imp_of_mem ?_ hbase
      intro a b ha hb hab
      rw [List.mem_reverse] at ha hb
      obtain ⟨ha2, halt⟩ := List.mem_range'_1.mp ha
      obtain ⟨hb2, hblt⟩ := List.mem_range'_1.mp hb
      exact ⟨hab, hb2, by omega⟩
    refine List.Pairwise.filterMap (interval_of events fo) ?_ hrev
    intro a b hab t₁ ht₁ t₂ ht₂
    obtain ⟨hba, hb2, haN⟩ := hab
    obtain ⟨hal, hal', hadelta, haend⟩ := interval_of_eq_some events fo a t₁ ht₁
    obtain ⟨hbl, hbl', hbdelta, hbend⟩ := interval_of_eq_some events fo b t₂ ht₂
    have hmono := hsec b a hbl hal hba
    omega

/-- Witness for C4 at a concrete three-event stream. -/
def c4_events : List Event :=
  [⟨0, 2024, 1, 1, "Coding"⟩, ⟨100, 2024, 1, 1, "Meetings"⟩, ⟨250, 2024, 1, 1, "Off"⟩]

theorem C4_witness :
    (2 ≤ c4_events.length ∧ c4_events.Pairwise (fun a b => a.sec < b.sec)) ∧
    ((get_activity_timings c4_events true).length ≤ c4_events.length - 2 ∧
     (∀ t ∈ get_activity_timings c4_events true, 0 ≤ t.delta) ∧
     (get_activity_timings c4_events true).Pairwise
       (fun t₁ t₂ => t₂.end_sec < t₁.end_sec)) :=
  ⟨⟨by decide, by decide⟩,
   C4_reconstructor_shape c4_events true (by decide) (by decide)⟩

/-- Claim C6: stepping `n ≥ 1` weeks back from week `w` of a non-negative
year `y` resolves to week `w − n` of the same year when `w − n ≥ 1`, and
otherwise to week `52 + (w − n)` of year `y − 1` (fixed 52-week wrap); the
result key is formatted unpadded.  Concretely, from `(2024, 1)` the two
consulted weeks for a window of 2 are `(2023, 52)` and `(2023, 51)`. -/
theorem C6_week_stepping (y : Int) (w : Nat) (n : Int) (hy : 0 ≤ y) (hn : 1 ≤ n) :
    (compute_weeks_ago_index (weekly_key y w) n =
      if 1 ≤ (w : Int) - n then unpadded_key y ((w : Int) - n)
      else unpadded_key (y - 1) (52 + ((w : Int) - n))) ∧
    compute_weeks_ago_index (weekly_key 2024 1) 1 = weekly_key 2023 52 ∧
    compute_weeks_ago_index (weekly_key 2024 1) 2 = weekly_key 2023 51 := by
  refine ⟨?_, by decide, by decide⟩
  unfold compute_weeks_ago_index
  rw [weekly_key_split y w hy]
  have hws : (parseInt (if w < 10 then '0' :: natDigits w else natDigits w)).getD 0
      = (w : Int) := by
    by_cases hw : w < 10
    · rw [if_pos hw, parseInt_zero_cons]; rfl
    · rw [if_neg hw, parseInt_natDigits]; rfl
  have hys : (parseInt (intToStr y)).getD 0 = y := by
    rw [parseInt_intToStr y hy]; rfl
  show (let prev_week : Int :=
          (parseInt (if w < 10 then '0' :: natDigits w else natDigits w)).getD 0 - n
        if prev_week < 1 then
          intToStr ((parseInt (intToStr y)).getD 0 - 1) ++ '-' :: intToStr (52 + prev_week)
        else intToStr y ++ '-' :: intToStr prev_week) = _
  rw [hws, hys]
  by_cases hcond : (w : Int) - n < 1
  · rw [if_pos hcond, if_neg (by omega)]
    rfl
  · rw [if_neg hcond, if_pos (by omega)]
    rfl

theorem C6_witness :
    ((0 : Int) ≤ 2024 ∧ (1 : Int) ≤ 1) ∧
    ((compute_weeks_ago_index (weekly_key 2024 1) 1 =
        if 1 ≤ ((1 : Nat) : Int) - 1 then unpadded_key 2024 (((1 : Nat) : Int) - 1)
        else unpadded_key (2024 - 1) (52 + (((1 : Nat) : Int) - 1))) ∧
      compute_weeks_ago_index (weekly_key 2024 1) 1 = weekly_key 2023 52 ∧
      compute_weeks_ago_index (weekly_key 2024 1) 2 = weekly_key 2023 51) :=
  ⟨⟨by decide, by decide⟩, C6_week_stepping 2024 1 1 (by decide) (by decide)⟩

/-- The weekly tally of the C2 scenario: week 9 of 2024 (stored under the
zero-padded key "2024-09") has data for "Coding", and the current week is
week 10 of 2024. -/
def c2_weekly_info : WeeklyInfo :=
  [(weekly_key 2024 9, [("Coding", ⟨5, 100⟩)]),
   (weekly_key 2024 10, [("Coding", ⟨6, 120⟩)])]

/-- Claim C2: `compute_weeks_ago_index` formats the preceding week's key
unpadded ("2024-9"), so it never matches the zero-padded weekly-tally key
"2024-09"; the preceding week's data for "Coding" contributes nothing and
the rolling tally (and with it the divisor) stays empty, contradicting the
claim that every preceding week with data contributes. -/
theorem C2_padding_mismatch :
    compute_weeks_ago_index (weekly_key 2024 10) 1 ≠ weekly_key 2024 9 ∧
    lookupD (compute_weeks_ago_index (weekly_key 2024 10) 1) c2_weekly_info = none ∧
    lookupD (weekly_key 2024 9) c2_weekly_info = some [("Coding", ⟨5, 100⟩)] ∧
    get_previous_weekly_tally 1 (weekly_key 2024 10) c2_weekly_info = [] := by
  refine ⟨by decide, by decide, by decide, by decide⟩

/-- Claim C7: weekly aggregation is order-independent — folding any
permutation of the interval sequence through `get_weekly_info` produces an
extensionally identical WeeklyTally: the same weeks are present, and every
`(week, activity)` bucket holds the same count and time. -/
theorem C7_weekly_aggregation_perm (l₁ l₂ : List Timing) (hp : l₁.Perm l₂) :
    (∀ wk, (lookupD wk (get_weekly_info l₁)).isSome =
        (lookupD wk (get_weekly_info l₂)).isSome) ∧
    (∀ wk act, lookup2 (get_weekly_info l₁) wk act =
        lookup2 (get_weekly_info l₂) wk act) := by
  constructor
  · intro wk
    unfold get_weekly_info
    rw [lookupD_foldl_isSome, lookupD_foldl_isSome]
    have hany : l₁.any (fun t => weekly_key t.year t.week = wk) =
        l₂.any (fun t => weekly_key t.year t.week = wk) := by
      rw [Bool.eq_iff_iff, List.any_eq_true, List.any_eq_true]
      constructor
      · rintro ⟨x, hx, hfx⟩
        exact ⟨x, hp.mem_iff.mp hx, hfx⟩
      · rintro ⟨x, hx, hfx⟩
        exact ⟨x, hp.mem_iff.mpr hx, hfx⟩
    rw [hany]
  · intro wk act
    unfold get_weekly_info
    rw [lookup2_foldl, lookup2_foldl]
    have hfil : (l₁.filter (matchesKA wk act)).Perm (l₂.filter (matchesKA wk act)) :=
      hp.filter _
    have hh : hits l₁ wk act = hits l₂ wk act := hfil.length_eq
    have hht : hitTime l₁ wk act = hitTime l₂ wk act :=
      (hfil.map Timing.delta).sum_eq
    rw [show hits l₁ wk act = hits l₂ wk act from hh,
        show hitTime l₁ wk act = hitTime l₂ wk act from hht]

/-- Witness for C7: two concrete interval lists that are permutations of
each other. -/
def c7_list1 : List Timing :=
  [⟨"Coding", 2024, 11, 2, 100, 1000⟩, ⟨"Meetings", 2024, 11, 2, 50, 900⟩,
   ⟨"Coding", 2024, 12, 3, 70, 2000⟩]

def c7_list2 : List Timing :=
  [⟨"Coding", 2024, 12, 3, 70, 2000⟩, ⟨"Coding", 2024, 11, 2, 100, 1000⟩,
   ⟨"Meetings", 2024, 11, 2, 50, 900⟩]

theorem C7_witness :
    c7_list1.Perm c7_list2 ∧
    ((∀ wk, (lookupD wk (get_weekly_info c7_list1)).isSome =
        (lookupD wk (get_weekly_info c7_list2)).isSome) ∧
     (∀ wk act, lookup2 (get_weekly_info c7_list1) wk act =
        lookup2 (get_weekly_info c7_list2) wk act)) :=
  ⟨by decide, C7_weekly_aggregation_perm c7_list1 c7_list2 (by decide)⟩

/-- Claim C5: for every week and activity reported by `get_wow_changes`,
the percentage pair follows the guarded formulas computed against the
rolling tally of `get_previous_weekly_tally`: `wow_count` is
`100 * (cur − avg) / avg` exactly when `avg_count ≥ 1` (else 0.0), and
`wow_time` is `100 * (cur − avg) / avg` exactly when `avg_time > 1`
(else 0.0); an activity absent from the rolling tally keeps both defaults.
The guards are asymmetric: `≥ 1` for counts, `> 1` for times. -/
theorem C5_wow_guards (weekly_info : WeeklyInfo) (weeks_ago : Nat) (week : Key)
    (acts : List (String × (ℚ × ℚ))) (act : String) (wc wt : ℚ)
    (hw : (week, acts) ∈ get_wow_changes weekly_info weeks_ago)
    (ha : (act, (wc, wt)) ∈ acts) :
    ∃ (am : ActivityMap) (cur : Tally),
      lookupD week weekly_info = some am ∧ (act, cur) ∈ am ∧
      (match lookupD act (get_previous_weekly_tally weeks_ago week weekly_info) with
       | none => wc = 0 ∧ wt = 0
       | some p =>
         wc = (if 1 ≤ p.count then 100 * ((cur.count : ℚ) - p.count) / p.count else 0) ∧
         wt = (if 1 < p.time then 100 * ((cur.time : ℚ) - p.time) / p.time else 0)) := by
  unfold get_wow_changes at hw
  obtain ⟨p, hp, hpe⟩ := List.mem_map.mp hw
  obtain ⟨hpw, hpa⟩ := Prod.mk.injEq .. |>.mp hpe
  subst hpw
  cases hlk : lookupD p.2 weekly_info with
  | none =>
    rw [hlk] at hpa
    subst hpa
    exact absurd ha (List.not_mem_nil _)
  | some am =>
    rw [hlk] at hpa
    subst hpa
    obtain ⟨q, hq, hqe⟩ := List.mem_map.mp ha
    obtain ⟨hq1, hq2⟩ := Prod.mk.injEq .. |>.mp hqe
    subst hq1
    refine ⟨am, q.2, rfl, by simpa using hq, ?_⟩
    unfold wow_for at hq2
    cases hT : lookupD q.1 (get_previous_weekly_tally weeks_ago p.2 weekly_info) with
    | none =>
      rw [hT] at hq2
      exact ⟨(Prod.mk.injEq .. |>.mp hq2.symm).1, (Prod.mk.injEq .. |>.mp hq2.symm).2⟩
    | some pt =>
      rw [hT] at hq2
      exact ⟨(Prod.mk.injEq .. |>.mp hq2.symm).1, (Prod.mk.injEq .. |>.mp hq2.symm).2⟩

/-- Witness for C5: four weeks of data where the rolling average count for
"A" over a window of 2 is 0.5, so both guards fail and the reported pair
is (0.0, 0.0). -/
def c5_weekly_info : WeeklyInfo :=
  [(weekly_key 2024 10, [("A", ⟨9, 9⟩)]),
   (weekly_key 2024 11, [("A", ⟨1, 1⟩)]),
   (weekly_key 2024 12, [("A", ⟨0, 0⟩)]),
   (weekly_key 2024 13, [("A", ⟨3, 300⟩)])]

theorem C5_witness :
    ((weekly_key 2024 13, [("A", ((0 : ℚ), (0 : ℚ)))]) ∈ get_wow_changes c5_weekly_info 2 ∧
     ("A", ((0 : ℚ), (0 : ℚ))) ∈ [("A", ((0 : ℚ), (0 : ℚ)))]) ∧
    (∃ (am : ActivityMap) (cur : Tally),
      lookupD (weekly_key 2024 13) c5_weekly_info = some am ∧ ("A", cur) ∈ am ∧
      (match lookupD "A" (get_previous_weekly_tally 2 (weekly_key 2024 13) c5_weekly_info) with
       | none => (0 : ℚ) = 0 ∧ (0 : ℚ) = 0
       | some p =>
         (0 : ℚ) = (if 1 ≤ p.count then 100 * ((cur.count : ℚ) - p.count) / p.count else 0) ∧
         (0 : ℚ) = (if 1 < p.time then 100 * ((cur.time : ℚ) - p.time) / p.time else 0))) :=
  have hmem : (weekly_key 2024 13, [("A", ((0 : ℚ), (0 : ℚ)))]) ∈
      get_wow_changes c5_weekly_info 2 := by
    rw [show get_wow_changes c5_weekly_info 2 =
        [(weekly_key 2024 13, [("A", ((0 : ℚ), (0 : ℚ)))])] by with_unfolding_all rfl]
    exact List.mem_singleton_self _
  ⟨⟨hmem, List.mem_singleton_self _⟩,
   C5_wow_guards c5_weekly_info 2 (weekly_key 2024 13) [("A", ((0 : ℚ), (0 : ℚ)))]
     "A" 0 0 hmem (List.mem_singleton_self _)⟩

theorem daily_fold_day_cnts (l : List Timing) :
    ∀ (cur : Nat) (stats : List (Nat × DayStat)) (d : Nat) (s : DayStat),
      lookupD d stats = some s →
      (lookupD d (l.foldl daily_step (cur, stats)).2).map DayStat.day_cnts =
        some (s.day_cnts + ((runStarts cur (l.map Timing.dow)).count d : Int)) := by
  induction l with
  | nil =>
    intro cur stats d s hs
    simp [runStarts, hs]
  | cons t l ih =>
    intro cur stats d s hs
    rw [List.foldl_cons]
    by_cases hchg : t.dow ≠ cur
    · have hstep : daily_step (cur, stats) t =
          (t.dow, updExisting t.dow (day_upd t) (updExisting t.dow day_bump1 stats)) := by
        simp only [daily_step, if_pos hchg]
      rw [hstep]
      have hrun : runStarts cur (t.dow :: l.map Timing.dow) =
          t.dow :: runStarts t.dow (l.map Timing.dow) := by
        simp [runStarts, hchg]
      by_cases hd : d = t.dow
      · have hs' : lookupD t.dow stats = some s := hd ▸ hs
        have hnew : lookupD d (updExisting t.dow (day_upd t)
            (updExisting t.dow day_bump1 stats)) = some (day_upd t (day_bump1 s)) := by
          rw [lookupD_updExisting, if_pos hd, lookupD_updExisting, if_pos rfl, hs']
          rfl
        rw [ih t.dow _ d _ hnew, List.map_cons, hrun, List.count_cons,
          if_pos (beq_iff_eq.mpr hd.symm)]
        have hdc : (day_upd t (day_bump1 s)).day_cnts = s.day_cnts + 1 := rfl
        rw [hdc]
        simp only [Option.some.injEq]
        push_cast
        ring
      · have hnew : lookupD d (updExisting t.dow (day_upd t)
            (updExisting t.dow day_bump1 stats)) = some s := by
          rw [lookupD_updExisting, if_neg hd, lookupD_updExisting, if_neg hd, hs]
        rw [ih t.dow _ d _ hnew, List.map_cons, hrun, List.count_cons,
          if_neg (by simp; exact fun h => hd h.symm)]
        simp
    · have hchg' : t.dow = cur := not_not.mp hchg
      have hstep : daily_step (cur, stats) t =
          (cur, updExisting t.dow (day_upd t) stats) := by
        simp only [daily_step, if_neg hchg]
      rw [hstep]
      have hrun : runStarts cur (t.dow :: l.map Timing.dow) =
          runStarts cur (l.map Timing.dow) := by
        simp [runStarts, hchg']
      by_cases hd : d = t.dow
      · have hs' : lookupD t.dow stats = some s := hd ▸ hs
        have hnew : lookupD d (updExisting t.dow (day_upd t) stats) =
            some (day_upd t s) := by
          rw [lookupD_updExisting, if_pos hd, hs']
          rfl
        rw [ih cur _ d _ hnew, List.map_cons, hrun]
        rfl
      · have hnew : lookupD d (updExisting t.dow (day_upd t) stats) = some s := by
          rw [lookupD_updExisting, if_neg hd, hs]
        rw [ih cur _ d _ hnew, List.map_cons, hrun]

/-- Two intervals, both on day-of-week 1 but in different ISO weeks, in the
Reconstructor's emission order. -/
def c8_timings : List Timing :=
  [⟨"A", 2024, 2, 1, 10, 100⟩, ⟨"A", 2024, 1, 1, 20, 50⟩]

/-- Claim C8 (counterexample): the traversal sees two distinct
`(day_of_week, iso_week)` pairs for day 1, yet `day_cnts` for day 1 is not
2 — the cursor compares only `day_of_week`, so the second interval (same
weekday, different week) does not increment. -/
theorem C8_counterexample :
    (c8_timings.map (fun t => (t.dow, t.week))).dedup.length = 2 ∧
    ¬ ((lookupD 1 (daily_statistics c8_timings)).map DayStat.day_cnts = some 2) := by
  refine ⟨by decide, by decide⟩

/-- Claim C8 (amended): in `daily_statistics`, `day_cnts` for day `d`
equals the number of maximal runs of equal `day_of_week` values that start
with `d` in the traversal order delivered by the Reconstructor (its native
reverse-chronological order, with initial cursor 0) — once per
day-of-week change, not once per distinct `(day_of_week, iso_week)` pair
and not in chronological order. -/
theorem C8_day_cnts_runs (l : List Timing)
    (hdow : ∀ t ∈ l, 1 ≤ t.dow ∧ t.dow ≤ 7)
    (d : Nat) (hd1 : 1 ≤ d) (hd7 : d ≤ 7) :
    (lookupD d (daily_statistics l)).map DayStat.day_cnts =
      some (((runStarts 0 (l.map Timing.dow)).count d : Int)) := by
  have hinit : lookupD d init_daily = some ⟨0, 0, 0, []⟩ := by
    interval_cases d <;> rfl
  have := daily_fold_day_cnts l 0 init_daily d ⟨0, 0, 0, []⟩ hinit
  rw [daily_statistics, this]
  norm_num

theorem C8_witness :
    ((∀ t ∈ c8_timings, 1 ≤ t.dow ∧ t.dow ≤ 7) ∧ 1 ≤ 1 ∧ 1 ≤ 7) ∧
    (lookupD 1 (daily_statistics c8_timings)).map DayStat.day_cnts =
      some (((runStarts 0 (c8_timings.map Timing.dow)).count 1 : Int)) :=
  ⟨⟨by decide, by decide, by decide⟩,
   C8_day_cnts_runs c8_timings (by decide) 1 (by decide) (by decide)⟩

theorem daily_fold_keys (l : List Timing) :
    ∀ (cur : Nat) (stats : List (Nat × DayStat)),
      ((l.foldl daily_step (cur, stats)).2).map Prod.fst = stats.map Prod.fst := by
  induction l with
  | nil => intro cur stats; rfl
  | cons t l ih =>
    intro cur stats
    rw [List.foldl_cons]
    have hsnd : (daily_step (cur, stats) t).2 =
        updExisting t.dow (day_upd t)
          (if t.dow ≠ cur then updExisting t.dow day_bump1 stats else stats) := rfl
    have h2 : ((l.foldl daily_step (daily_step (cur, stats) t)).2).map Prod.fst =
        ((daily_step (cur, stats) t).2).map Prod.fst := by
      have := ih (daily_step (cur, stats) t).1 (daily_step (cur, stats) t).2
      simpa using this
    rw [h2, hsnd, map_fst_updExisting]
    by_cases hchg : t.dow ≠ cur
    · rw [if_pos hchg, map_fst_updExisting]
    · rw [if_neg hchg]

theorem daily_fold_untouched (l : List Timing) (d : Nat) (hnd : ∀ t ∈ l, t.dow ≠ d) :
    ∀ (cur : Nat) (stats : List (Nat × DayStat)),
      lookupD d (l.foldl daily_step (cur, stats)).2 = lookupD d stats := by
  induction l with
  | nil => intro cur stats; rfl
  | cons t l ih =>
    intro cur stats
    have htd : ¬ d = t.dow := fun h =>
      hnd t (List.mem_cons_self t l) h.symm
    rw [List.foldl_cons]
    have hrest := ih (fun x hx => hnd x (List.mem_cons_of_mem t hx))
      (daily_step (cur, stats) t).1 (daily_step (cur, stats) t).2
    have hone : lookupD d (daily_step (cur, stats) t).2 = lookupD d stats := by
      have hsnd : (daily_step (cur, stats) t).2 =
          updExisting t.dow (day_upd t)
            (if t.dow ≠ cur then updExisting t.dow day_bump1 stats else stats) := rfl
      rw [hsnd, lookupD_updExisting, if_neg htd]
      by_cases hchg : t.dow ≠ cur
      · rw [if_pos hchg, lookupD_updExisting, if_neg htd]
      · rw [if_neg hchg]
    calc lookupD d (l.foldl daily_step (daily_step (cur, stats) t)).2
        = lookupD d (daily_step (cur, stats) t).2 := by simpa using hrest
      _ = lookupD d stats := hone

/-- Claim C10: for every interval sequence (with the day-of-week values in
1..7, as the `isocalendar()`-derived data guarantees), the mapping
returned by `daily_statistics` has exactly the seven keys 1..7 in order,
and the entry of a day on which no interval ends still carries
`context_switches = 0`, `day_cnts = 0`, `total_time = 0` (and no activity
entries). -/
theorem C10_daily_shape (l : List Timing)
    (hdow : ∀ t ∈ l, 1 ≤ t.dow ∧ t.dow ≤ 7) :
    ((daily_statistics l).map Prod.fst = [1, 2, 3, 4, 5, 6, 7]) ∧
    (∀ d, 1 ≤ d → d ≤ 7 → (∀ t ∈ l, t.dow ≠ d) →
      lookupD d (daily_statistics l) = some ⟨0, 0, 0, []⟩) := by
  constructor
  · rw [daily_statistics, daily_fold_keys]
    rfl
  · intro d h1 h7 hnd
    rw [daily_statistics, daily_fold_untouched l d hnd]
    interval_cases d <;> rfl

/-- Witness for C10: a single interval ending on a Wednesday (day 3). -/
def c10_timings : List Timing := [⟨"A", 2024, 5, 3, 42, 500⟩]

theorem C10_witness :
    (∀ t ∈ c10_timings, 1 ≤ t.dow ∧ t.dow ≤ 7) ∧
    (((daily_statistics c10_timings).map Prod.fst = [1, 2, 3, 4, 5, 6, 7]) ∧
     (∀ d, 1 ≤ d → d ≤ 7 → (∀ t ∈ c10_timings, t.dow ≠ d) →
       lookupD d (daily_statistics c10_timings) = some ⟨0, 0, 0, []⟩)) :=
  ⟨by decide, C10_daily_shape c10_timings (by decide)⟩

/-- Claim C9 (counterexample): on an empty history, both statistics
reports hit an unguarded division by zero — `get_daily_statistics`
divides `context_switches` by `day_cnts = 0` and `get_activity_statistics`
divides the weekday total by `weekday_cnt = 0` — instead of producing a
defined default. -/
theorem C9_counterexample :
    get_daily_statistics_calc [] = Except.error "ZeroDivisionError" ∧
    get_activity_statistics_calc [] = Except.error "ZeroDivisionError" := by
  refine ⟨by with_unfolding_all rfl, by with_unfolding_all rfl⟩

/-- Claim C9 (amended): the guarded computations return defined defaults —
`average_mins` and `medium_mins` return 0 on an empty sample list, the
trend guards return (0.0, 0.0) for an activity whose rolling averages fall
under the thresholds, and `get_wow_changes` on an empty history returns
an empty record — but `get_daily_statistics` and `get_activity_statistics`
perform unguarded divisions by the day counts and raise
`ZeroDivisionError` on an empty history. -/
theorem C9_guards_amended :
    average_mins [] = 0 ∧ medium_mins [] = 0 ∧
    wow_for [("A", ⟨1/2, 1/2⟩)] "A" ⟨3, 300⟩ = (0, 0) ∧
    get_wow_changes [] 1 = [] ∧
    get_daily_statistics_calc [] = Except.error "ZeroDivisionError" ∧
    get_activity_statistics_calc [] = Except.error "ZeroDivisionError" := by
  refine ⟨rfl, rfl, by with_unfolding_all rfl, rfl,
    by with_unfolding_all rfl, by with_unfolding_all rfl⟩

def c3_good1 : List Char := "20240101120000 Coding".data

def c3_bad : List Char := "2024010112000x Meetings".data

def c3_good2 : List Char := "20240101130000 Off".data

/-- Claim C3 (code evaluation at the failing input): a line whose
timestamp does not parse makes the whole load abort — the `except`
handler itself raises (it calls `sys.exc_traceback()`, a non-callable
traceback object) — so the lines after it are lost; the same input
without the malformed line loads fine.  This contradicts the claim that a
malformed line is skipped and processing continues. -/
theorem C3_loader_aborts :
    get_activities_in_localtime id [c3_good1, c3_bad, c3_good2] =
      Except.error "TypeError" ∧
    get_activities_in_localtime id [c3_good1, c3_good2] =
      Except.ok [("20240101120000".data, "Coding".data),
                 ("20240101130000".data, "Off".data)] := by
  refine ⟨rfl, rfl⟩
